import Mathlib

/-!
# Verification of the AVeriTeC coarse retrieval pipeline

Shallow embedding of `src/retrieval_coarse/averitec_search.py`: Python string
primitives, the date-normalization block, the search retry wrapper, the result
filter, the per-claim dedup store, the fetch worker function, and the
resume-log parser, together with theorems settling the frozen claims.
-/

namespace Averitec

/-! ## Python string primitives -/

/-- ASCII whitespace characters recognised by Python's `str.strip()`. -/
def isPyWs (c : Char) : Bool :=
  c = ' ' || c = '\t' || c = '\n' || c = '\r' || c = '\x0b' || c = '\x0c'

/-- Python `str.strip()`: remove leading and trailing whitespace. -/
def pyStrip (s : String) : String :=
  ⟨(((s.data.dropWhile isPyWs).reverse.dropWhile isPyWs).reverse)⟩

/-- Python `str.lower()` (ASCII case folding, which covers the URLs and
domains handled by the script). -/
def pyLower (s : String) : String :=
  ⟨s.data.map Char.toLower⟩

/-- Auxiliary splitter over character lists: `acc` holds the current field
reversed. -/
def splitChAux (sep : Char) : List Char → List Char → List String
  | [], acc => [⟨acc.reverse⟩]
  | c :: cs, acc =>
    if c = sep then ⟨acc.reverse⟩ :: splitChAux sep cs []
    else splitChAux sep cs (c :: acc)

/-- Python `str.split(sep)` for a one-character separator (the script splits
only on `"-"` and `"\t"`). `"".split(sep) = [""]`, empty fields preserved. -/
def pySplit (sep : Char) (s : String) : List String :=
  splitChAux sep s.data []

/-- `needle` occurs as a prefix of `hay` (character lists). -/
def strHasPre : List Char → List Char → Bool
  | [], _ => true
  | _ :: _, [] => false
  | a :: as, b :: bs => a = b && strHasPre as bs

/-- Python `needle in hay` substring test. -/
def strHas (hay needle : String) : Bool :=
  go hay.data
where
  go : List Char → Bool
    | [] => strHasPre needle.data []
    | c :: cs => strHasPre needle.data (c :: cs) || go cs

/-- Python `hay.endswith(suffix)`. -/
def strEndsWith (hay suffix : String) : Bool :=
  strHasPre suffix.data.reverse hay.data.reverse

/-- Value of a most-significant-first list of decimal digit characters. -/
def valOfDigits : List Char → Nat
  | [] => 0
  | c :: cs => (c.toNat - 48) * 10 ^ cs.length + valOfDigits cs

/-- Digit characters of `n`, most significant first, `[]` for `0`; the fuel
argument bounds the recursion and any fuel `≥ n` gives the same answer. -/
def decDigits : Nat → Nat → List Char
  | 0, _ => []
  | fuel + 1, n =>
    if n = 0 then []
    else decDigits fuel (n / 10) ++ [Char.ofNat (48 + n % 10)]

/-- Python `str(n)` for a non-negative integer: standard decimal numeral. -/
def decRepr (n : Nat) : String :=
  if n = 0 then "0" else ⟨decDigits n n⟩

/-- Python `int(s)`: strip whitespace, optional single sign, then a non-empty
run of decimal digits; `none` models a raised `ValueError`.  (Underscore digit
separators need at least three characters and the script only parses
two-character year strings, so they are not modelled.) -/
def pyInt? (s : String) : Option Int :=
  let t := (pyStrip s).data
  match t with
  | '+' :: ds => (digitsVal? ds).map (Int.ofNat ·)
  | '-' :: ds => (digitsVal? ds).map (fun v => -(Int.ofNat v))
  | ds => (digitsVal? ds).map (Int.ofNat ·)
where
  /-- Parse a non-empty all-digit run. -/
  digitsVal? (l : List Char) : Option Nat :=
    if l ≠ [] ∧ l.all Char.isDigit then
      some (l.foldl (fun acc c => acc * 10 + (c.toNat - 48)) 0)
    else none

/-- Python `"\n".join(lines)`. -/
def joinNL : List String → String
  | [] => ""
  | [x] => x
  | x :: y :: xs => x ++ "\n" ++ joinNL (y :: xs)

/-- First line of a file's content (up to the first newline). -/
def firstLine (s : String) : String :=
  ⟨s.data.takeWhile (fun c => c ≠ '\n')⟩

/-- Python `os.path.join(a, b)` for POSIX paths. -/
def osPathJoin (a b : String) : String :=
  if strHasPre ['/'] b.data then b
  else if a = "" then b
  else if strEndsWith a "/" then a ++ b
  else a ++ "/" ++ b

/-! ## Date normalization (`averitec_search.py` lines 177-192)

The script runs `year, month, date = check_date.split("-")` inside a
`try`/`except` whose fallback is `month, date, year = "01", "01", "2022"`;
the year/month/day expansion that follows is *outside* the `try`, so the
`int(year)` call in the two-character branch can raise an uncaught
`ValueError`, modelled here as `none`. -/

/-- The expansion block after the `try`: year widening, zero-padding, and
concatenation.  `none` models the uncaught `ValueError` from `int(year)` when
`year` has length 2 but is not numeric. -/
def normParts (year month date : String) : Option String :=
  let step : Option String :=
    if year.length = 2 then
      match pyInt? year with
      | none => none
      | some v => some ((if v ≤ 30 then "20" else "19") ++ year)
    else if year.length = 1 then some ("200" ++ year)
    else some year
  match step with
  | none => none
  | some y =>
    let m := if month.length = 1 then "0" ++ month else month
    let d := if date.length = 1 then "0" ++ date else date
    some (y ++ m ++ d)

/-- The whole date-normalization block: split on `"-"`; a failed three-way
unpack (wrong arity) is caught and replaced by the fallback parts. -/
def normalizeCheckDate (s : String) : Option String :=
  match pySplit '-' s with
  | [y, m, d] => normParts y m d
  | _ => normParts "2022" "01" "01"

/-! ## Blacklists and domain extraction (lines 44-83) -/

/-- The built-in domain blacklist (`blacklist_domains`). -/
def blacklist_domains : List String :=
  ["jstor.org", "facebook.com", "ftp.cs.princeton.edu",
   "nlp.cs.princeton.edu", "huggingface.co"]

/-- The built-in URL-substring blacklist (`blacklist_files`). -/
def blacklist_files : List String :=
  ["/glove.",
   "ftp://ftp.cs.princeton.edu/pub/cs226/autocomplete/words-333333.txt",
   "https://web.mit.edu/adamrose/Public/googlelist"]

/-- Loading of the misinfo blacklist file (lines 44-49): each line is
stripped, blank lines skipped, and the rest lower-cased in order. -/
def loadMisinfoLines (fileLines : List String) : List String :=
  fileLines.filterMap (fun l =>
    let s := pyStrip l
    if s = "" then none else some (pyLower s))

/-- Characters allowed in a URL scheme after the leading letter
(`urllib.parse` scheme characters). -/
def isSchemeChar (c : Char) : Bool :=
  c.isAlpha || c.isDigit || c = '+' || c = '-' || c = '.'

/-- `urllib.parse.urlparse(url).netloc`: strip a well-formed `scheme:`, then
read the authority after a leading `//` up to the first `/`, `?` or `#`;
URLs with no `//` authority have an empty netloc. -/
def urlparseNetloc (url : String) : String :=
  let l := url.data
  let pre := l.takeWhile (fun c => c ≠ ':')
  let rest :=
    if pre.length < l.length ∧ pre ≠ [] ∧
        (pre.headD ' ').isAlpha ∧ pre.all isSchemeChar then
      l.drop (pre.length + 1)
    else l
  match rest with
  | '/' :: '/' :: r => ⟨r.takeWhile (fun c => c ≠ '/' ∧ c ≠ '?' ∧ c ≠ '#')⟩
  | _ => ""

/-- `get_domain_name` (lines 79-83): default the scheme to `http`, take the
netloc, and strip a leading `www.`. -/
def get_domain_name (url : String) : String :=
  let u := if strHas url "://" then url else "http://" ++ url
  let domain := urlparseNetloc u
  if strHasPre "www.".data domain.data then ⟨domain.data.drop 4⟩ else domain

/-! ## Result filtering (main loop, lines 217-227)

The main loop skips a result when the link is empty, when its domain is in
`blacklist_domains`, when it contains a `blacklist_files` substring, or when
the lower-cased link ends with `.pdf`, `.doc` or `.docx`.  The `misinfo_list`
loaded at startup is never consulted here. -/

/-- The extension rule: `link.lower().endswith((".pdf", ".doc", ".docx"))`.
Note it inspects the whole URL string, not the URL's path component. -/
def extReject (link : String) : Bool :=
  let low := pyLower link
  strEndsWith low ".pdf" || strEndsWith low ".doc" || strEndsWith low ".docx"

/-- Whether the main loop keeps a search-result link (true) or `continue`s
past it (false). -/
def resultFilterAccept (link : String) : Bool :=
  if link = "" then false
  else if blacklist_domains.contains (get_domain_name link) then false
  else if blacklist_files.any (fun bf => strHas link bf) then false
  else if extReject link then false
  else true

/-- The URL's path component (scheme and authority removed, query and
fragment dropped), following `urllib.parse` semantics for well-formed URLs.
Used only to state the spec's path-based reading of the extension rule. -/
def urlPathComponent (url : String) : String :=
  let l := url.data
  let pre := l.takeWhile (fun c => c ≠ ':')
  let rest :=
    if pre.length < l.length ∧ pre ≠ [] ∧
        (pre.headD ' ').isAlpha ∧ pre.all isSchemeChar then
      l.drop (pre.length + 1)
    else l
  let afterAuth :=
    match rest with
    | '/' :: '/' :: r => r.dropWhile (fun c => c ≠ '/' ∧ c ≠ '?' ∧ c ≠ '#')
    | _ => rest
  ⟨afterAuth.takeWhile (fun c => c ≠ '?' ∧ c ≠ '#')⟩

/-- The spec's reading of the extension rule: the *path component* ends,
case-insensitively, with `.pdf`, `.doc` or `.docx`. -/
def specPathExtReject (url : String) : Bool :=
  extReject (urlPathComponent url)

/-! ## Search dispatch with retry (`get_google_search_results`, lines 101-116)

The provider is abstracted as a function from the attempt number to either a
result list or an error; the wrapper makes at most 3 attempts, sleeps 3
seconds after each failed attempt, and returns `[]` when all fail.  The
result also records the number of attempts made and the total seconds slept,
so the retry policy itself is provable. -/

/-- Outcome of the retry wrapper: results, attempts made, seconds slept. -/
structure RetryOutcome (R : Type) where
  results : List R
  attempts : Nat
  sleptSeconds : Nat
  deriving Repr, DecidableEq

/-- The `for _ in range(3)` retry loop. -/
def retryAux {E R : Type} (provider : Nat → Except E (List R)) :
    Nat → Nat → Nat → RetryOutcome R
  | 0, attempt, slept => ⟨[], attempt, slept⟩
  | fuel + 1, attempt, slept =>
    match provider attempt with
    | .ok rs => ⟨rs, attempt + 1, slept⟩
    | .error _ => retryAux provider fuel (attempt + 1) (slept + 3)

/-- `get_google_search_results`: up to 3 attempts, 3-second sleep after each
provider error, empty list on exhaustion.  Total by construction: the bare
`except` swallows every provider error. -/
def get_google_search_results {E R : Type} (provider : Nat → Except E (List R)) :
    RetryOutcome R :=
  retryAux provider 3 0 0

/-! ## Fetch worker (`get_and_store`, lines 121-131) and drain loop -/

/-- A raised Python exception: its type name and message. -/
structure PyError where
  typeName : String
  message : String
  deriving Repr, DecidableEq

/-- The tuple a worker returns: `(fp, url, ok, msg)`. -/
structure FetchOutcome where
  fp : String
  url : String
  ok : Bool
  msg : String
  deriving Repr, DecidableEq

/-- `get_and_store`: run the extractor; on success write the URL followed by
the extracted lines (joined with newlines) to the store file and report
success, on any extractor error report failure with `TypeName: message` and
write nothing.  The second component is the content written, `none` when no
file is written.  Total by construction: the `except` catches everything, so
the worker never raises to its caller.  (The `isinstance(page_lines, list)`
coercion is vacuous here because the extractor capability is typed as
returning a list of lines.) -/
def get_and_store (extractor : String → Except PyError (List String))
    (url_link fp : String) : FetchOutcome × Option String :=
  match extractor url_link with
  | .ok page_lines =>
    (⟨fp, url_link, true, "ok"⟩, some (joinNL (url_link :: page_lines)))
  | .error e =>
    (⟨fp, url_link, false, e.typeName ++ ": " ++ e.message⟩, none)

/-- The log line emitted by the drain loop (lines 243-252) for one completed
task of claim `idx`. -/
def drainLine (idx : Nat) (o : FetchOutcome) : String :=
  if o.ok then "[OK] " ++ decRepr idx ++ " | " ++ o.url ++ " -> salvo em " ++ o.fp
  else "[FAIL] " ++ decRepr idx ++ " | " ++ o.url ++ " -> " ++ o.msg

/-- The drain loop over completed outcomes in completion order: one log line
per task. -/
def drainOutcomes (outs : List (Nat × FetchOutcome)) : List String :=
  outs.map (fun p => drainLine p.1 p.2)

/-! ## Per-claim dedup store (lines 208-240)

`visited` and `store_counter` are initialised afresh inside the per-claim
loop; for each accepted link the loop either reuses the stored path or
assigns `search_result_{idx}_{counter}.store` and submits one fetch task. -/

/-- First-match association-list lookup (Python `dict` read). -/
def lookupAssoc {β : Type} (m : List (String × β)) (k : String) : Option β :=
  match m with
  | [] => none
  | (k', v) :: rest => if k' = k then some v else lookupAssoc rest k

/-- Association-list overwrite (Python `dict` write). -/
def updateAssoc {β : Type} (m : List (String × β)) (k : String) (v : β) :
    List (String × β) :=
  match m with
  | [] => [(k, v)]
  | (k', v') :: rest =>
    if k' = k then (k, v) :: rest else (k', v') :: updateAssoc rest k v

/-- The store path assigned to the `c`-th first-seen URL of claim `idx`. -/
def storePath (folder : String) (idx c : Nat) : String :=
  osPathJoin folder ("search_result_" ++ decRepr idx ++ "_" ++ decRepr c ++ ".store")

/-- Per-claim dedup state: the `visited` map, the `store_counter`, and the
fetch tasks submitted so far (url, store path) in submission order. -/
structure DedupState where
  visited : List (String × String)
  counter : Nat
  submitted : List (String × String)
  deriving Repr, DecidableEq

/-- The fresh state built at the start of each claim (`visited = {}`,
`store_counter = 0`). -/
def initDedup : DedupState := ⟨[], 0, []⟩

/-- One accepted link (lines 229-240): reuse the stored path for a seen URL,
otherwise increment the counter, assign a path, record it and submit one
fetch task.  Returns the new state and the path printed for this occurrence
(`visited[link]`). -/
def dedupStep (folder : String) (idx : Nat) (s : DedupState) (link : String) :
    DedupState × String :=
  match lookupAssoc s.visited link with
  | some p => (s, p)
  | none =>
    let c := s.counter + 1
    let p := storePath folder idx c
    (⟨updateAssoc s.visited link p, c, s.submitted ++ [(link, p)]⟩, p)

/-- Fold `dedupStep` over the remaining links from state `s`; returns the
final state and the path printed for each occurrence, in order. -/
def runDedup (folder : String) (idx : Nat) (s : DedupState) :
    List String → DedupState × List String
  | [] => (s, [])
  | l :: ls =>
    let step := dedupStep folder idx s l
    let rest := runDedup folder idx step.1 ls
    (rest.1, step.2 :: rest.2)

/-- Process a claim's accepted links in arrival order, starting from the
fresh per-claim state (`visited = {}`, `store_counter = 0`, mirroring the
re-initialisation at the top of the per-claim loop). -/
def runClaimLinks (folder : String) (idx : Nat) (links : List String) :
    DedupState × List String :=
  runDedup folder idx initDedup links

/-- The links submitted if processing proceeds with `seen` already visited:
each link the first time it appears, in order of first appearance (the
spec's "first sight" order). -/
def firstSights (seen : List String) : List String → List String
  | [] => []
  | l :: ls => if l ∈ seen then firstSights seen ls
               else l :: firstSights (l :: seen) ls

/-! ## Resume-log parsing (lines 139-153) and replay (lines 167-172)

The loop skips the first line unconditionally, strips and tab-splits each
later line, indexes field 1 as the claim text (an uncaught `IndexError`,
modelled as `Except.error ()`, when there is no second field), groups
contiguous equal-claim lines, and stores a finished group in `existing` only
when a *differing* claim text arrives and the finished group's claim text is
truthy.  The group in progress when the file ends is never stored. -/

/-- Claim text of a resume line: field 1 of the stripped, tab-split line;
`none` models the `IndexError` from `parts[1]`. -/
def claimField (line : String) : Option String :=
  (pySplit '\t' (pyStrip line)).get? 1

/-- Parser state: groups stored so far, the claim text of the group in
progress (`none` before the first data line), and its lines. -/
structure ResumeState where
  existing : List (String × List String)
  cur : Option String
  curLines : List String
  deriving Repr, DecidableEq

/-- One iteration of the parsing loop on a non-first line. -/
def resumeStep (st : ResumeState) (line : String) : Except Unit ResumeState :=
  match claimField line with
  | none => .error ()
  | some claim =>
    let st' :=
      if st.cur = some claim then st
      else
        { existing :=
            match st.cur with
            | some c => if c ≠ "" then updateAssoc st.existing c st.curLines
                        else st.existing
            | none => st.existing
          cur := some claim
          curLines := [] }
    .ok { st' with curLines := st'.curLines ++ [pyStrip line] }

/-- Run the parsing loop over the lines after the first. -/
def parseLines (st : ResumeState) : List String → Except Unit ResumeState
  | [] => .ok st
  | l :: ls =>
    match resumeStep st l with
    | .error e => .error e
    | .ok st' => parseLines st' ls

/-- The whole resume parse: skip the first line, fold the rest, return the
stored groups (`existing`). -/
def parseResume : List String → Except Unit (List (String × List String))
  | [] => .ok []
  | _ :: rest => (parseLines ⟨[], none, []⟩ rest).map (fun st => st.existing)

/-- Replay decision in the main loop (`if claim in existing`): `some lines`
means the stored lines are printed verbatim and every other step for the
claim is skipped; `none` means the claim is fully processed. -/
def resumeReplay (existing : List (String × List String)) (claimText : String) :
    Option (List String) :=
  lookupAssoc existing claimText

/-! ## Helper lemmas -/

theorem splitChAux_no_sep {sep : Char} :
    ∀ (l : List Char) (acc : List Char), (∀ c ∈ l, c ≠ sep) →
      splitChAux sep l acc = [⟨acc.reverse ++ l⟩] := by
  intro l
  induction l with
  | nil => intro acc _; simp [splitChAux]
  | cons c cs ih =>
    intro acc h
    have hc : c ≠ sep := h c (List.mem_cons_self c cs)
    simp only [splitChAux, if_neg hc]
    rw [ih (c :: acc) (fun x hx => h x (List.mem_cons_of_mem c hx))]
    simp

theorem splitChAux_sep {sep : Char} :
    ∀ (l : List Char) (acc rest : List Char), (∀ c ∈ l, c ≠ sep) →
      splitChAux sep (l ++ sep :: rest) acc =
        ⟨acc.reverse ++ l⟩ :: splitChAux sep rest [] := by
  intro l
  induction l with
  | nil => intro acc rest _; simp [splitChAux]
  | cons c cs ih =>
    intro acc rest h
    have hc : c ≠ sep := h c (List.mem_cons_self c cs)
    simp only [List.cons_append, List.append_eq, splitChAux, if_neg hc]
    rw [ih (c :: acc) rest (fun x hx => h x (List.mem_cons_of_mem c hx))]
    simp

/-! ## Claim C9: date-normalization examples and expansion rules -/

/-- C9: `DateNormalizer` satisfies the stated examples — `"22-3-4" ↦
"20220304"`, `"1-1-1" ↦ "20010101"`, `"bad-date" ↦ "20220101"` — and the
expansion rules: a 1-character year is prefixed with `"200"`, a 2-character
numeric year with `"20"` when its value is at most 30 and `"19"` otherwise,
a year of length at least 4 is unchanged, and 1-character months and days
are left-padded with `"0"`. -/
theorem dateNormalizer_examples_and_expansion :
    normalizeCheckDate "22-3-4" = some "20220304" ∧
    normalizeCheckDate "1-1-1" = some "20010101" ∧
    normalizeCheckDate "bad-date" = some "20220101" ∧
    (∀ s y m d, pySplit '-' s = [y, m, d] → y.length = 1 →
      normalizeCheckDate s =
        some (("200" ++ y) ++ (if m.length = 1 then "0" ++ m else m) ++
          (if d.length = 1 then "0" ++ d else d))) ∧
    (∀ s y m d v, pySplit '-' s = [y, m, d] → y.length = 2 → pyInt? y = some v →
      normalizeCheckDate s =
        some (((if v ≤ 30 then "20" else "19") ++ y) ++
          (if m.length = 1 then "0" ++ m else m) ++
          (if d.length = 1 then "0" ++ d else d))) ∧
    (∀ s y m d, pySplit '-' s = [y, m, d] → 4 ≤ y.length →
      normalizeCheckDate s =
        some (y ++ (if m.length = 1 then "0" ++ m else m) ++
          (if d.length = 1 then "0" ++ d else d))) := by
  refine ⟨by decide, by decide, by decide, ?_, ?_, ?_⟩
  · intro s y m d hsplit hlen
    unfold normalizeCheckDate
    rw [hsplit]
    show normParts y m d = _
    simp [normParts, hlen]
  · intro s y m d v hsplit hlen hint
    unfold normalizeCheckDate
    rw [hsplit]
    show normParts y m d = _
    simp [normParts, hlen, hint]
  · intro s y m d hsplit hlen
    unfold normalizeCheckDate
    rw [hsplit]
    show normParts y m d = _
    have h2 : y.length ≠ 2 := by omega
    have h1 : y.length ≠ 1 := by omega
    simp [normParts, h2, h1]

/-- Witness for C9: the 2-character-year rule applied at the concrete input
`"85-12-7"` (85 > 30, so the `"19"` prefix), with the day left-padded. -/
theorem dateNormalizer_examples_and_expansion_witness :
    normalizeCheckDate "85-12-7" = some "19851207" := by
  have h := dateNormalizer_examples_and_expansion.2.2.2.2.1 "85-12-7" "85" "12" "7" 85
    (by decide) (by decide) (by decide)
  exact h.trans (by decide)

/-! ## Claim C3: totality of date normalization (refuted)

The `try`/`except` around the three-way unpack protects only the split; the
`int(year)` call in the 2-character-year branch sits outside it, so a
three-field date whose year is 2 characters and non-numeric (e.g.
`"ab-1-1"`) raises an uncaught `ValueError`.  Normalization is therefore not
total, contrary to the claim. -/

/-- C3 counterexample: the concrete input `"ab-1-1"` has three fields and a
non-numeric 2-character year; the code raises (modelled `none`) instead of
substituting the `"20220101"` fallback, refuting "never raises ... total and
never fatal for any input string". -/
theorem dateNormalizer_not_total_counterexample :
    normalizeCheckDate "ab-1-1" = none := by decide

/-- C3 amended: a missing delimiter or wrong arity (anything but exactly
three `'-'`-separated fields) is caught and yields the fixed fallback
`"20220101"`; but normalization is not total — a three-field input whose
year is a 2-character non-numeric string raises an uncaught error. -/
theorem dateNormalizer_fallback_on_arity :
    (∀ s, (pySplit '-' s).length ≠ 3 → normalizeCheckDate s = some "20220101") ∧
    (∀ s y m d, pySplit '-' s = [y, m, d] → y.length = 2 → pyInt? y = none →
      normalizeCheckDate s = none) := by
  constructor
  · intro s h
    unfold normalizeCheckDate
    rcases hl : pySplit '-' s with _ | ⟨a, _ | ⟨b, _ | ⟨c, _ | ⟨e, tl⟩⟩⟩⟩
    · show normParts "2022" "01" "01" = _; decide
    · show normParts "2022" "01" "01" = _; decide
    · show normParts "2022" "01" "01" = _; decide
    · rw [hl] at h; simp at h
    · show normParts "2022" "01" "01" = _; decide
  · intro s y m d hsplit hlen hint
    unfold normalizeCheckDate
    rw [hsplit]
    show normParts y m d = none
    simp [normParts, hlen, hint]

/-- Witness for C3's amended statement: a delimiter-free input falls back to
`"20220101"`, and the concrete three-field input `"ab-1-1"` raises. -/
theorem dateNormalizer_fallback_on_arity_witness :
    normalizeCheckDate "nodate" = some "20220101" ∧
    normalizeCheckDate "ab-1-1" = none :=
  ⟨dateNormalizer_fallback_on_arity.1 "nodate" (by decide),
   dateNormalizer_fallback_on_arity.2 "ab-1-1" "ab" "1" "1"
     (by decide) (by decide) (by decide)⟩

/-! ## Claim C2: the misinfo blacklist file is loaded but never consulted

Lines 44-49 build `misinfo_list` (stripped, lower-cased), and the warning on
a missing file says processing continues "sem blacklist adicional" — yet the
result filter (lines 216-227) tests the domain only against the built-in
`blacklist_domains`, case-sensitively.  The loaded domains never participate
in any rejection rule. -/

/-- C2 failing input, evaluated on the code: with the misinfo file containing
`badsite.com`, the loader produces exactly that domain, the URL
`http://badsite.com/page` has exactly that domain, the domain is not in the
built-in list — and the filter still accepts the URL.  Moreover the built-in
comparison is case-sensitive: `http://Facebook.com/x` is accepted although
`facebook.com` is blacklisted. -/
theorem misinfoBlacklist_not_consulted :
    loadMisinfoLines ["badsite.com"] = ["badsite.com"] ∧
    get_domain_name "http://badsite.com/page" = "badsite.com" ∧
    "badsite.com" ∉ blacklist_domains ∧
    resultFilterAccept "http://badsite.com/page" = true ∧
    get_domain_name "http://Facebook.com/x" = "Facebook.com" ∧
    "facebook.com" ∈ blacklist_domains ∧
    resultFilterAccept "http://Facebook.com/x" = true := by decide

/-! ## Claim C4: the extension rule inspects the whole URL, not the path -/

/-- C4 counterexample: `http://example.com/report.pdf?x=1` has a path
component ending in `.pdf`, yet the filter accepts it (the trailing query
hides the extension from `str.endswith`); conversely
`http://example.com/a?f=x.pdf` has a clean path but is rejected because the
query string ends in `.pdf`.  Both directions of the claim's "exactly when
its path component ends ..." fail. -/
theorem extRule_path_reading_counterexample :
    specPathExtReject "http://example.com/report.pdf?x=1" = true ∧
    resultFilterAccept "http://example.com/report.pdf?x=1" = true ∧
    specPathExtReject "http://example.com/a?f=x.pdf" = false ∧
    resultFilterAccept "http://example.com/a?f=x.pdf" = false := by decide

/-- C4 amended: for every URL reaching the extension rule (non-empty, domain
not blacklisted, no blacklisted substring), the filter rejects exactly when
the *entire URL string*, lower-cased, ends with `.pdf`, `.doc` or `.docx`;
trailing query parameters therefore defeat the rule. -/
theorem extRule_whole_url (link : String) (h1 : link ≠ "")
    (h2 : blacklist_domains.contains (get_domain_name link) = false)
    (h3 : blacklist_files.any (fun bf => strHas link bf) = false) :
    resultFilterAccept link = !extReject link := by
  simp only [resultFilterAccept, if_neg h1, h2, h3]
  cases h : extReject link <;> simp [h]

/-- Witness for C4's amended statement: the spec's own examples —
`http://example.com/report.PDF` rejected case-insensitively,
`http://example.com/article` accepted. -/
theorem extRule_whole_url_witness :
    resultFilterAccept "http://example.com/report.PDF" = false ∧
    resultFilterAccept "http://example.com/article" = true := by
  constructor
  · have h := extRule_whole_url "http://example.com/report.PDF"
      (by decide) (by decide) (by decide)
    exact h.trans (by decide)
  · have h := extRule_whole_url "http://example.com/article"
      (by decide) (by decide) (by decide)
    exact h.trans (by decide)

/-! ## Claim C7: bounded retry with fixed pause, degrading to `[]` -/

/-- Whether an `Except` value is a success. -/
def isOkE {E A : Type} : Except E A → Bool
  | .ok _ => true
  | .error _ => false

/-- C7: the dispatch makes at most 3 attempts; if every attempt fails it
returns the empty list (after 3 attempts and 3 seconds of sleep per failed
attempt, 9 in total) instead of propagating the error; and if attempt `k`
is the first success its results are returned after `k + 1` attempts and
`3 * k` seconds of sleep.  Totality of `get_google_search_results` is the
no-propagation guarantee: the bare `except` swallows every provider error. -/
theorem searchRetry_policy {E R : Type} (p : Nat → Except E (List R)) :
    (get_google_search_results p).attempts ≤ 3 ∧
    ((∀ k, k < 3 → isOkE (p k) = false) →
      get_google_search_results p = ⟨[], 3, 9⟩) ∧
    (∀ k rs, k < 3 → (∀ j, j < k → isOkE (p j) = false) → p k = .ok rs →
      get_google_search_results p = ⟨rs, k + 1, 3 * k⟩) := by
  rcases h0 : p 0 with e0 | r0
  · rcases h1 : p 1 with e1 | r1
    · rcases h2 : p 2 with e2 | r2
      · have hres : get_google_search_results p = ⟨[], 3, 9⟩ := by
          simp [get_google_search_results, retryAux, h0, h1, h2]
        refine ⟨by rw [hres], fun _ => hres, ?_⟩
        intro k rs hk _ hok
        interval_cases k
        · rw [h0] at hok; exact absurd hok (by simp)
        · rw [h1] at hok; exact absurd hok (by simp)
        · rw [h2] at hok; exact absurd hok (by simp)
      · have hres : get_google_search_results p = ⟨r2, 3, 6⟩ := by
          simp [get_google_search_results, retryAux, h0, h1, h2]
        refine ⟨by rw [hres], ?_, ?_⟩
        · intro h
          have := h 2 (by omega)
          rw [h2] at this; exact absurd this (by simp [isOkE])
        · intro k rs hk hprev hok
          interval_cases k
          · rw [h0] at hok; exact absurd hok (by simp)
          · rw [h1] at hok; exact absurd hok (by simp)
          · rw [h2] at hok
            have : rs = r2 := by injection hok with h; exact h.symm
            subst this
            exact hres
    · have hres : get_google_search_results p = ⟨r1, 2, 3⟩ := by
        simp [get_google_search_results, retryAux, h0, h1]
      refine ⟨by rw [hres]; exact Nat.le.step Nat.le.refl, ?_, ?_⟩
      · intro h
        have := h 1 (by omega)
        rw [h1] at this; exact absurd this (by simp [isOkE])
      · intro k rs hk hprev hok
        interval_cases k
        · rw [h0] at hok; exact absurd hok (by simp)
        · rw [h1] at hok
          have : rs = r1 := by injection hok with h; exact h.symm
          subst this
          exact hres
        · have := hprev 1 (by omega)
          rw [h1] at this; exact absurd this (by simp [isOkE])
  · have hres : get_google_search_results p = ⟨r0, 1, 0⟩ := by
      simp [get_google_search_results, retryAux, h0]
    refine ⟨by rw [hres]; exact Nat.le.step (Nat.le.step Nat.le.refl), ?_, ?_⟩
    · intro h
      have := h 0 (by omega)
      rw [h0] at this; exact absurd this (by simp [isOkE])
    · intro k rs hk hprev hok
      interval_cases k
      · rw [h0] at hok
        have : rs = r0 := by injection hok with h; exact h.symm
        subst this
        exact hres
      · have := hprev 0 (by omega)
        rw [h0] at this; exact absurd this (by simp [isOkE])
      · have := hprev 0 (by omega)
        rw [h0] at this; exact absurd this (by simp [isOkE])

/-- Witness for C7: a provider that fails on attempt 0 and succeeds on
attempt 1 yields that result after 2 attempts and one 3-second pause. -/
theorem searchRetry_policy_witness :
    get_google_search_results
      (fun k => if k = 0 then Except.error "quota" else Except.ok ["r1"]) =
      ⟨["r1"], 2, 3⟩ := by
  have h := (searchRetry_policy
      (fun k => if k = 0 then Except.error "quota" else Except.ok ["r1"])).2.2
      1 ["r1"] (by omega)
      (fun j hj => by
        have : j = 0 := by omega
        subst this; decide)
      rfl
  simpa using h

/-! ## Claim C8: the fetch worker never raises and isolates failures -/

theorem takeWhile_all {p : Char → Bool} :
    ∀ l : List Char, (∀ c ∈ l, p c = true) → l.takeWhile p = l := by
  intro l
  induction l with
  | nil => intro _; rfl
  | cons c cs ih =>
    intro h
    simp [List.takeWhile, h c (List.mem_cons_self c cs),
      ih (fun x hx => h x (List.mem_cons_of_mem c hx))]

theorem takeWhile_append_stop {p : Char → Bool} {x : Char} :
    ∀ (l r : List Char), (∀ c ∈ l, p c = true) → p x = false →
      (l ++ x :: r).takeWhile p = l := by
  intro l
  induction l with
  | nil => intro r _ hx; simp [List.takeWhile, hx]
  | cons c cs ih =>
    intro r h hx
    simp only [List.cons_append, List.append_eq, List.takeWhile,
      h c (List.mem_cons_self c cs)]
    rw [ih r (fun y hy => h y (List.mem_cons_of_mem c hy)) hx]

/-- The written document starts with the URL: its first line (up to the
first newline) is exactly the URL, provided the URL itself has none. -/
theorem firstLine_joinNL (url : String) (ls : List String)
    (h : ∀ c ∈ url.data, c ≠ '\n') :
    firstLine (joinNL (url :: ls)) = url := by
  have hall : ∀ c ∈ url.data, (fun c => decide (c ≠ '\n')) c = true := by
    intro c hc
    simpa using h c hc
  cases ls with
  | nil =>
    show (⟨url.data.takeWhile _⟩ : String) = url
    rw [takeWhile_all url.data hall]
  | cons y xs =>
    show (⟨((url ++ "\n" ++ joinNL (y :: xs)).data.takeWhile _ : List Char)⟩ : String) = url
    have hdata : (url ++ "\n" ++ joinNL (y :: xs)).data =
        url.data ++ '\n' :: (joinNL (y :: xs)).data := by
      simp
    rw [hdata, takeWhile_append_stop url.data _ hall (by decide)]

/-- C8: the worker function is total (never raises to its caller): on
extractor success it reports `(fp, url, True, "ok")` and writes the URL
followed by the extracted lines, the first line of the written content being
the URL; on any extractor error it reports `(fp, url, False, "Type: msg")`
with the error's category name and message and writes nothing.  The drain
loop maps each completed task to its own log line, so one task's failure
neither changes any other task's line nor shortens the log. -/
theorem fetchWorker_isolated (extractor : String → Except PyError (List String))
    (url fp : String) :
    (∀ ls, extractor url = .ok ls →
      get_and_store extractor url fp =
        (⟨fp, url, true, "ok"⟩, some (joinNL (url :: ls)))) ∧
    (∀ ls, extractor url = .ok ls → (∀ c ∈ url.data, c ≠ '\n') →
      firstLine (joinNL (url :: ls)) = url) ∧
    (∀ e, extractor url = .error e →
      get_and_store extractor url fp =
        (⟨fp, url, false, e.typeName ++ ": " ++ e.message⟩, none)) ∧
    (∀ outs1 outs2 : List (Nat × FetchOutcome),
      drainOutcomes (outs1 ++ outs2) = drainOutcomes outs1 ++ drainOutcomes outs2) ∧
    (∀ outs : List (Nat × FetchOutcome), (drainOutcomes outs).length = outs.length) := by
  refine ⟨?_, ?_, ?_, ?_, ?_⟩
  · intro ls h; simp [get_and_store, h]
  · intro ls _ h; exact firstLine_joinNL url ls h
  · intro e h; simp [get_and_store, h]
  · intro outs1 outs2; simp [drainOutcomes]
  · intro outs; simp [drainOutcomes]

/-- Witness for C8: a concrete successful extraction writes the URL as the
first line, and the outcome tuple is as stated. -/
theorem fetchWorker_isolated_witness :
    get_and_store (fun _ => Except.ok ["line one", "line two"])
        "http://e.com/a" "f.store" =
      (⟨"f.store", "http://e.com/a", true, "ok"⟩,
        some (joinNL ["http://e.com/a", "line one", "line two"])) ∧
    firstLine (joinNL ["http://e.com/a", "line one", "line two"]) =
      "http://e.com/a" :=
  ⟨(fetchWorker_isolated (fun _ => Except.ok ["line one", "line two"])
      "http://e.com/a" "f.store").1 ["line one", "line two"] rfl,
   (fetchWorker_isolated (fun _ => Except.ok ["line one", "line two"])
      "http://e.com/a" "f.store").2.1 ["line one", "line two"] rfl (by decide)⟩

/-! ## Claim C10: a tab-less resume line aborts startup -/

theorem mem_pyStrip {c : Char} {s : String} (h : c ∈ (pyStrip s).data) :
    c ∈ s.data := by
  simp only [pyStrip, List.mem_reverse] at h
  have h2 : c ∈ (s.data.dropWhile isPyWs).reverse :=
    (List.dropWhile_sublist isPyWs).subset h
  exact (List.dropWhile_sublist isPyWs).subset (List.mem_reverse.mp h2)

/-- A line with no tab character splits into a single field, so `parts[1]`
does not exist. -/
theorem claimField_none_of_no_tab {line : String}
    (h : ∀ c ∈ line.data, c ≠ '\t') : claimField line = none := by
  unfold claimField pySplit
  rw [splitChAux_no_sep (pyStrip line).data []
    (fun c hc => h c (mem_pyStrip hc))]
  rfl

theorem parseLines_error_of_mem :
    ∀ (rest : List String) (st : ResumeState) (l : String), l ∈ rest →
      claimField l = none → parseLines st rest = .error () := by
  intro rest
  induction rest with
  | nil => intro st l hmem _; exact absurd hmem (List.not_mem_nil l)
  | cons hd tl ih =>
    intro st l hmem hcf
    rcases List.mem_cons.mp hmem with heq | htl
    · subst heq
      simp [parseLines, resumeStep, hcf]
    · cases hhd : claimField hd with
      | none => simp [parseLines, resumeStep, hhd]
      | some c =>
        simp only [parseLines, resumeStep, hhd]
        exact ih _ l htl hcf

/-- C10: if any line after the first has no tab character in it — such as
the `[OK]`/`[FAIL]`/`[EXC]` fetch-status lines the program itself writes to
the same stream — the resume parse aborts with an uncaught `IndexError`
(modelled as `Except.error ()`) when indexing the second tab-separated
field. -/
theorem resumeParse_indexError (hdr : String) (rest : List String) (l : String)
    (hmem : l ∈ rest) (hnotab : ∀ c ∈ l.data, c ≠ '\t') :
    parseResume (hdr :: rest) = .error () := by
  show (parseLines ⟨[], none, []⟩ rest).map (fun st => st.existing) = .error ()
  rw [parseLines_error_of_mem rest ⟨[], none, []⟩ l hmem
    (claimField_none_of_no_tab hnotab)]
  rfl

/-- Witness for C10: a resume file whose second line is one of the program's
own fetch-status lines aborts the parse. -/
theorem resumeParse_indexError_witness :
    parseResume ["index\tclaim\tlink\tpage\tsearch_string\tsearch_type\tstore_file",
      "[OK] 0 | http://e.com/a -> salvo em f.store"] = .error () :=
  resumeParse_indexError _ _ "[OK] 0 | http://e.com/a -> salvo em f.store"
    (List.mem_singleton.mpr rfl) (by decide)

/-! ## Claim C5: the first resume line is discarded unconditionally -/

/-- C5 counterexample: a header-less resume file whose first line is a
well-formed data line of claim `A` still loses that line — the stored group
for `A` contains only the second line. -/
theorem resumeFirstLine_counterexample :
    claimField "0\tA\tx1" = some "A" ∧
    parseResume ["0\tA\tx1", "0\tA\tx2", "0\tB\ty1"] =
      .ok [("A", ["0\tA\tx2"])] := ⟨rfl, rfl⟩

/-- C5 amended: the parser discards the first line of the resume file
unconditionally — the parse result never depends on the first line's
content, so when the file has no header its first data line is lost. -/
theorem resumeFirstLine_always_skipped (a b : String) (rest : List String) :
    parseResume (a :: rest) = parseResume (b :: rest) := rfl

/-! ## Claim C1: resume replay and the lost last group -/

/-- C1 counterexample: a resume file holding a header and one data line of
claim `A`: the claim's text appears in the prior output, yet the parse
stores nothing (the final group is only flushed when a *differing* claim
text arrives), so the replay lookup misses and the claim is fully
reprocessed instead of replayed. -/
theorem resumeLastGroup_counterexample :
    claimField "0\tA\thttp://e.com/a" = some "A" ∧
    (parseResume ["index\tclaim\tlink", "0\tA\thttp://e.com/a"]).map
      (fun ex => resumeReplay ex "A") = .ok none := ⟨rfl, rfl⟩

theorem parseLines_append :
    ∀ (a b : List String) (st : ResumeState),
      parseLines st (a ++ b) =
        match parseLines st a with
        | .error e => .error e
        | .ok st' => parseLines st' b := by
  intro a
  induction a with
  | nil => intro b st; rfl
  | cons l t ih =>
    intro b st
    show parseLines st (l :: (t ++ b)) = _
    cases h : resumeStep st l with
    | error e => simp [parseLines, h]
    | ok st' => simp only [parseLines, h]; exact ih b st'

/-- While consecutive lines carry the claim text already current, the step
only appends the stripped line to the group in progress. -/
theorem parseLines_same_claim :
    ∀ (g : List String) (ex : List (String × List String)) (cl : List String)
      (c : String), (∀ l ∈ g, claimField l = some c) →
      parseLines ⟨ex, some c, cl⟩ g = .ok ⟨ex, some c, cl ++ g.map pyStrip⟩ := by
  intro g
  induction g with
  | nil => intro ex cl c _; simp [parseLines]
  | cons l t ih =>
    intro ex cl c hf
    have hcf : claimField l = some c := hf l (List.mem_cons_self l t)
    have hstep : resumeStep ⟨ex, some c, cl⟩ l =
        .ok ⟨ex, some c, cl ++ [pyStrip l]⟩ := by
      simp [resumeStep, hcf]
    simp only [parseLines, hstep]
    rw [ih ex (cl ++ [pyStrip l]) c (fun x hx => hf x (List.mem_cons_of_mem l hx))]
    simp

theorem map_pyStrip_id :
    ∀ (g : List String), (∀ l ∈ g, pyStrip l = l) → g.map pyStrip = g := by
  intro g
  induction g with
  | nil => intro _; rfl
  | cons a t ih =>
    intro h
    simp only [List.map_cons, h a (List.mem_cons_self a t),
      ih (fun l hl => h l (List.mem_cons_of_mem a hl))]

/-- C1 amended: replay is byte-identical for a claim whose group is
*finalized* — followed in the resume file by a group with a different,
non-empty claim text.  For such a claim the replayed lines are exactly the
original emitted lines (the parser stores them stripped, which is the
identity on the program's own output lines, hypothesis `hstrip`).  The
group that is last in the file is never stored (see the counterexample), so
the claim's universal "including the last group" fails. -/
theorem resumeReplay_stored_group (hdr : String) (g1 g2 : List String)
    (c1 c2 : String) (hg1 : g1 ≠ []) (hg2 : g2 ≠ [])
    (hf1 : ∀ l ∈ g1, claimField l = some c1)
    (hf2 : ∀ l ∈ g2, claimField l = some c2)
    (hstrip : ∀ l ∈ g1, pyStrip l = l)
    (hne : c1 ≠ c2) (hc1 : c1 ≠ "") :
    (parseResume (hdr :: (g1 ++ g2))).map (fun ex => resumeReplay ex c1) =
      .ok (some g1) := by
  rcases g1 with _ | ⟨l1, t1⟩
  · exact absurd rfl hg1
  rcases g2 with _ | ⟨l2, t2⟩
  · exact absurd rfl hg2
  have hcf1 : claimField l1 = some c1 := hf1 l1 (List.mem_cons_self l1 t1)
  have hcf2 : claimField l2 = some c2 := hf2 l2 (List.mem_cons_self l2 t2)
  have hstep1 : resumeStep ⟨[], none, []⟩ l1 = .ok ⟨[], some c1, [pyStrip l1]⟩ := by
    simp [resumeStep, hcf1]
  have ht1 : parseLines (⟨[], some c1, [pyStrip l1]⟩ : ResumeState) t1 =
      .ok ⟨[], some c1, [pyStrip l1] ++ t1.map pyStrip⟩ :=
    parseLines_same_claim t1 [] [pyStrip l1] c1
      (fun x hx => hf1 x (List.mem_cons_of_mem l1 hx))
  have hg1map : ([pyStrip l1] ++ t1.map pyStrip : List String) = l1 :: t1 := by
    have := map_pyStrip_id (l1 :: t1) hstrip
    simpa using this
  have hnec : ¬ ((some c1 : Option String) = some c2) := by
    intro hh; exact hne (Option.some.inj hh)
  have hstep2 : resumeStep ⟨[], some c1, l1 :: t1⟩ l2 =
      .ok ⟨[(c1, l1 :: t1)], some c2, [pyStrip l2]⟩ := by
    simp [resumeStep, hcf2, hnec, hc1, updateAssoc]
  have ht2 : parseLines (⟨[(c1, l1 :: t1)], some c2, [pyStrip l2]⟩ : ResumeState) t2 =
      .ok ⟨[(c1, l1 :: t1)], some c2, [pyStrip l2] ++ t2.map pyStrip⟩ :=
    parseLines_same_claim t2 [(c1, l1 :: t1)] [pyStrip l2] c2
      (fun x hx => hf2 x (List.mem_cons_of_mem l2 hx))
  have hrun : parseLines ⟨[], none, []⟩ ((l1 :: t1) ++ (l2 :: t2)) =
      .ok ⟨[(c1, l1 :: t1)], some c2, [pyStrip l2] ++ t2.map pyStrip⟩ := by
    rw [show ((l1 :: t1) ++ (l2 :: t2) : List String) = l1 :: (t1 ++ (l2 :: t2))
      from rfl]
    simp only [parseLines, hstep1]
    rw [parseLines_append t1 (l2 :: t2) _, ht1, hg1map]
    show parseLines ⟨[], some c1, l1 :: t1⟩ (l2 :: t2) = _
    simp only [parseLines, hstep2]
    exact ht2
  have hPR : parseResume (hdr :: ((l1 :: t1) ++ (l2 :: t2))) =
      (parseLines ⟨[], none, []⟩ ((l1 :: t1) ++ (l2 :: t2))).map
        (fun st => st.existing) := rfl
  rw [hPR, hrun]
  simp [Except.map, resumeReplay, lookupAssoc]

/-- Witness for C1's amended statement: a header plus a two-line group for
claim `A` followed by a one-line group for claim `B`; `A`'s lines replay
byte-identically. -/
theorem resumeReplay_stored_group_witness :
    (parseResume ["index\tclaim\tlink",
        "0\tA\thttp://e.com/a", "0\tA\thttp://e.com/b", "1\tB\thttp://e.com/c"]).map
      (fun ex => resumeReplay ex "A") =
      .ok (some ["0\tA\thttp://e.com/a", "0\tA\thttp://e.com/b"]) := by
  have h := resumeReplay_stored_group "index\tclaim\tlink"
    ["0\tA\thttp://e.com/a", "0\tA\thttp://e.com/b"] ["1\tB\thttp://e.com/c"]
    "A" "B" (by decide) (by decide) (by decide) (by decide) (by decide)
    (by decide) (by decide)
  simpa using h

/-! ## Claim C6: store-path injectivity

The store path embeds the per-claim counter as a decimal numeral; to show
distinct counters give distinct path strings we verify a round trip: a
parser that reads the trailing digit run before `.store` recovers the
counter from the path. -/

theorem valOfDigits_append (l : List Char) (c : Char) :
    valOfDigits (l ++ [c]) = 10 * valOfDigits l + (c.toNat - 48) := by
  induction l with
  | nil => simp [valOfDigits]
  | cons a as ih =>
    show (a.toNat - 48) * 10 ^ (as ++ [c]).length + valOfDigits (as ++ [c]) = _
    rw [ih]
    simp only [List.length_append, List.length_cons, List.length_nil,
      valOfDigits]
    ring

theorem digit_char_toNat {r : Nat} (h : r < 10) :
    (Char.ofNat (48 + r)).toNat = 48 + r := by
  interval_cases r <;> decide

theorem digit_char_isDigit {r : Nat} (h : r < 10) :
    (Char.ofNat (48 + r)).isDigit = true := by
  interval_cases r <;> decide

theorem valOfDigits_decDigits :
    ∀ (fuel n : Nat), n ≤ fuel → valOfDigits (decDigits fuel n) = n := by
  intro fuel
  induction fuel with
  | zero => intro n hn; interval_cases n; rfl
  | succ f ih =>
    intro n hn
    by_cases h0 : n = 0
    · subst h0; simp [decDigits, valOfDigits]
    · have hdivlt : n / 10 < n := Nat.div_lt_self (Nat.pos_of_ne_zero h0) (by omega)
      simp only [decDigits, if_neg h0]
      rw [valOfDigits_append, ih (n / 10) (by omega),
        digit_char_toNat (Nat.mod_lt n (by omega))]
      omega

theorem decDigits_all_digits :
    ∀ (fuel n : Nat), ∀ ch ∈ decDigits fuel n, ch.isDigit = true := by
  intro fuel
  induction fuel with
  | zero => intro n ch hch; simp [decDigits] at hch
  | succ f ih =>
    intro n ch hch
    by_cases h0 : n = 0
    · rw [h0] at hch; simp [decDigits] at hch
    · simp only [decDigits, if_neg h0] at hch
      rcases List.mem_append.mp hch with h | h
      · exact ih (n / 10) ch h
      · rw [List.mem_singleton.mp h]
        exact digit_char_isDigit (Nat.mod_lt n (by omega))

theorem decRepr_all_digits (n : Nat) :
    ∀ ch ∈ (decRepr n).data, ch.isDigit = true := by
  by_cases h0 : n = 0
  · subst h0
    intro ch hch
    have h1 : (decRepr 0).data = ['0'] := rfl
    rw [h1, List.mem_singleton] at hch
    rw [hch]; decide
  · intro ch hch
    have h1 : (decRepr n).data = decDigits n n := by
      unfold decRepr; rw [if_neg h0]
    rw [h1] at hch
    exact decDigits_all_digits n n ch hch

theorem valOfDigits_decRepr (n : Nat) : valOfDigits (decRepr n).data = n := by
  by_cases h0 : n = 0
  · subst h0; rfl
  · have h1 : (decRepr n).data = decDigits n n := by
      unfold decRepr; rw [if_neg h0]
    rw [h1]
    exact valOfDigits_decDigits n n le_rfl

/-- Proof device: recover the counter embedded in a store path — drop the 6
characters of `.store` from the end, read the digit run, and evaluate it. -/
def extractCounter (s : String) : Nat :=
  valOfDigits (((s.data.reverse.drop 6).takeWhile Char.isDigit).reverse)

theorem osPathJoin_data (a b : String) :
    ∃ Q : List Char, (osPathJoin a b).data = Q ++ b.data := by
  unfold osPathJoin
  split
  · exact ⟨[], rfl⟩
  split
  · exact ⟨[], rfl⟩
  split
  · exact ⟨a.data, by rw [String.data_append]⟩
  · refine ⟨a.data ++ ['/'], ?_⟩
    rw [String.data_append, String.data_append, List.append_assoc]

theorem extract_shape (P D : List Char) (hD : ∀ ch ∈ D, ch.isDigit = true) :
    valOfDigits (((((P ++ ['_']) ++ (D ++ ".store".data)).reverse.drop
      6).takeWhile Char.isDigit).reverse) = valOfDigits D := by
  have hstep1 : ((P ++ ['_']) ++ (D ++ ".store".data)).reverse =
      ".store".data.reverse ++ (D.reverse ++ ('_' :: P.reverse)) := by
    simp [List.reverse_append]
  have hstep2 : ∀ X : List Char, (".store".data.reverse ++ X).drop 6 = X :=
    fun X => rfl
  rw [hstep1, hstep2,
    takeWhile_append_stop D.reverse P.reverse
      (fun c hc => hD c (List.mem_reverse.mp hc)) (by decide),
    List.reverse_reverse]

theorem extractCounter_storePath (folder : String) (idx c : Nat) :
    extractCounter (storePath folder idx c) = c := by
  obtain ⟨Q, hQ⟩ := osPathJoin_data folder
    ("search_result_" ++ decRepr idx ++ "_" ++ decRepr c ++ ".store")
  have hfull : (storePath folder idx c).data =
      ((Q ++ ("search_result_".data ++ (decRepr idx).data)) ++ ['_']) ++
        ((decRepr c).data ++ ".store".data) := by
    show (osPathJoin folder _).data = _
    rw [hQ]
    simp [String.data_append, List.append_assoc,
      show ("_" : String).data = ['_'] from rfl]
  unfold extractCounter
  rw [hfull, extract_shape _ _ (decRepr_all_digits c), valOfDigits_decRepr]

theorem storePath_inj {folder : String} {idx c1 c2 : Nat}
    (h : storePath folder idx c1 = storePath folder idx c2) : c1 = c2 := by
  have h1 := extractCounter_storePath folder idx c1
  have h2 := extractCounter_storePath folder idx c2
  rw [h] at h1
  exact h1.symm.trans h2

/-! ## Claim C6: dedup-store lemmas -/

theorem lookupAssoc_updateAssoc_self {β : Type} :
    ∀ (m : List (String × β)) (k : String) (v : β),
      lookupAssoc (updateAssoc m k v) k = some v := by
  intro m
  induction m with
  | nil => intro k v; simp [updateAssoc, lookupAssoc]
  | cons p rest ih =>
    intro k v
    rcases p with ⟨k', v'⟩
    by_cases h : k' = k
    · simp [updateAssoc, h, lookupAssoc]
    · simp [updateAssoc, h, lookupAssoc, ih]

theorem lookupAssoc_updateAssoc_other {β : Type} :
    ∀ (m : List (String × β)) (k q : String) (v : β), q ≠ k →
      lookupAssoc (updateAssoc m k v) q = lookupAssoc m q := by
  intro m
  induction m with
  | nil =>
    intro k q v hq
    have h : ¬(k = q) := fun hh => hq hh.symm
    simp [updateAssoc, lookupAssoc, h]
  | cons p rest ih =>
    intro k q v hq
    rcases p with ⟨k', v'⟩
    by_cases h : k' = k
    · subst h
      simp only [updateAssoc, if_pos rfl, lookupAssoc]
      rw [if_neg (fun h => hq h.symm), if_neg (fun h => hq h.symm)]
    · simp only [updateAssoc, if_neg h, lookupAssoc]
      by_cases hk : k' = q
      · rw [if_pos hk, if_pos hk]
      · rw [if_neg hk, if_neg hk]
        exact ih k q v hq

theorem lookupAssoc_eq_none_iff {β : Type} :
    ∀ (m : List (String × β)) (k : String),
      lookupAssoc m k = none ↔ k ∉ m.map Prod.fst := by
  intro m
  induction m with
  | nil => intro k; simp [lookupAssoc]
  | cons p rest ih =>
    intro k
    rcases p with ⟨k', v'⟩
    by_cases h : k' = k
    · subst h
      simp [lookupAssoc]
    · have h2 : ¬(k = k') := fun hh => h hh.symm
      simp only [lookupAssoc, if_neg h, List.map_cons, List.mem_cons]
      rw [ih k]
      simp [h2]

theorem updateAssoc_map_fst_of_absent {β : Type} :
    ∀ (m : List (String × β)) (k : String) (v : β), lookupAssoc m k = none →
      (updateAssoc m k v).map Prod.fst = m.map Prod.fst ++ [k] := by
  intro m
  induction m with
  | nil => intro k v _; rfl
  | cons p rest ih =>
    intro k v habs
    rcases p with ⟨k', v'⟩
    by_cases h : k' = k
    · simp [lookupAssoc, h] at habs
    · simp only [lookupAssoc, if_neg h] at habs
      simp [updateAssoc, if_neg h, ih k v habs]

/-- The invariant kept by the per-claim loop: every stored path was minted
from a counter in `[1, store_counter]`, and distinct URLs hold distinct
paths. -/
def goodState (folder : String) (idx : Nat) (s : DedupState) : Prop :=
  (∀ u p, lookupAssoc s.visited u = some p →
    ∃ k, 1 ≤ k ∧ k ≤ s.counter ∧ p = storePath folder idx k) ∧
  (∀ u1 u2 p, lookupAssoc s.visited u1 = some p →
    lookupAssoc s.visited u2 = some p → u1 = u2)

theorem goodState_init (folder : String) (idx : Nat) :
    goodState folder idx initDedup := by
  constructor
  · intro u p h; simp [initDedup, lookupAssoc] at h
  · intro u1 u2 p h1 h2; simp [initDedup, lookupAssoc] at h1

theorem dedupStep_lookup_preserved {folder : String} {idx : Nat}
    {s : DedupState} {l u p : String}
    (h : lookupAssoc s.visited u = some p) :
    lookupAssoc (dedupStep folder idx s l).1.visited u = some p := by
  cases hl : lookupAssoc s.visited l with
  | some q => simpa [dedupStep, hl] using h
  | none =>
    simp only [dedupStep, hl]
    by_cases hu : u = l
    · subst hu; rw [h] at hl; cases hl
    · rw [lookupAssoc_updateAssoc_other _ _ _ _ hu]
      exact h

theorem dedupStep_self_lookup {folder : String} {idx : Nat}
    {s : DedupState} {l : String} :
    lookupAssoc (dedupStep folder idx s l).1.visited l =
      some (dedupStep folder idx s l).2 := by
  cases hl : lookupAssoc s.visited l with
  | some q => simp [dedupStep, hl]
  | none =>
    simp only [dedupStep, hl]
    exact lookupAssoc_updateAssoc_self _ _ _

theorem dedupStep_good {folder : String} {idx : Nat} {s : DedupState}
    {l : String} (hg : goodState folder idx s) :
    goodState folder idx (dedupStep folder idx s l).1 := by
  obtain ⟨hctr, hinj⟩ := hg
  cases hl : lookupAssoc s.visited l with
  | some q =>
    have heq : (dedupStep folder idx s l).1 = s := by simp [dedupStep, hl]
    rw [heq]; exact ⟨hctr, hinj⟩
  | none =>
    constructor
    · intro u p hu
      simp only [dedupStep, hl] at hu
      by_cases huv : u = l
      · subst huv
        rw [lookupAssoc_updateAssoc_self] at hu
        exact ⟨s.counter + 1, by omega, by simp [dedupStep, hl],
          (Option.some.inj hu).symm⟩
      · rw [lookupAssoc_updateAssoc_other _ _ _ _ huv] at hu
        obtain ⟨k, hk1, hk2, hk3⟩ := hctr u p hu
        exact ⟨k, hk1, by simp [dedupStep, hl]; omega, hk3⟩
    · intro u1 u2 p h1 h2
      simp only [dedupStep, hl] at h1 h2
      by_cases e1 : u1 = l <;> by_cases e2 : u2 = l
      · rw [e1, e2]
      · subst e1
        rw [lookupAssoc_updateAssoc_self] at h1
        rw [lookupAssoc_updateAssoc_other _ _ _ _ e2] at h2
        obtain ⟨k, hk1, hk2, hk3⟩ := hctr u2 p h2
        have := storePath_inj ((Option.some.inj h1).trans hk3)
        omega
      · subst e2
        rw [lookupAssoc_updateAssoc_self] at h2
        rw [lookupAssoc_updateAssoc_other _ _ _ _ e1] at h1
        obtain ⟨k, hk1, hk2, hk3⟩ := hctr u1 p h1
        have := storePath_inj ((Option.some.inj h2).trans hk3)
        omega
      · rw [lookupAssoc_updateAssoc_other _ _ _ _ e1] at h1
        rw [lookupAssoc_updateAssoc_other _ _ _ _ e2] at h2
        exact hinj u1 u2 p h1 h2

theorem runDedup_lookup_preserved {folder : String} {idx : Nat} :
    ∀ (ls : List String) (s : DedupState) (u p : String),
      lookupAssoc s.visited u = some p →
      lookupAssoc (runDedup folder idx s ls).1.visited u = some p := by
  intro ls
  induction ls with
  | nil => intro s u p h; exact h
  | cons l t ih =>
    intro s u p h
    exact ih _ u p (dedupStep_lookup_preserved h)

theorem runDedup_good {folder : String} {idx : Nat} :
    ∀ (ls : List String) (s : DedupState), goodState folder idx s →
      goodState folder idx (runDedup folder idx s ls).1 := by
  intro ls
  induction ls with
  | nil => intro s h; exact h
  | cons l t ih => intro s h; exact ih _ (dedupStep_good h)

theorem runDedup_length {folder : String} {idx : Nat} :
    ∀ (ls : List String) (s : DedupState),
      (runDedup folder idx s ls).2.length = ls.length := by
  intro ls
  induction ls with
  | nil => intro s; rfl
  | cons l t ih => intro s; simp [runDedup, ih]

/-- Each printed path equals the final map's entry for that occurrence's
URL: path assignments are stable for the whole claim. -/
theorem runDedup_printed {folder : String} {idx : Nat} :
    ∀ (ls : List String) (s : DedupState) (n : Nat) (u : String),
      ls.get? n = some u →
      (runDedup folder idx s ls).2.get? n =
        lookupAssoc (runDedup folder idx s ls).1.visited u := by
  intro ls
  induction ls with
  | nil => intro s n u h; simp at h
  | cons l t ih =>
    intro s n u h
    cases n with
    | zero =>
      have hu : l = u := by simpa using h
      subst hu
      show some (dedupStep folder idx s l).2 = _
      exact (runDedup_lookup_preserved t _ l _ dedupStep_self_lookup).symm
    | succ m =>
      have ht : t.get? m = some u := by simpa using h
      exact ih _ m u ht

theorem firstSights_congr :
    ∀ (ls : List String) (s1 s2 : List String),
      (∀ x, x ∈ s1 ↔ x ∈ s2) → firstSights s1 ls = firstSights s2 ls := by
  intro ls
  induction ls with
  | nil => intro s1 s2 _; rfl
  | cons l t ih =>
    intro s1 s2 hmem
    by_cases h : l ∈ s1
    · simp only [firstSights, if_pos h, if_pos ((hmem l).mp h)]
      exact ih s1 s2 hmem
    · simp only [firstSights, if_neg h, if_neg (fun hh => h ((hmem l).mpr hh))]
      refine congrArg (l :: ·) (ih (l :: s1) (l :: s2) ?_)
      intro x
      simp [hmem x]

theorem runDedup_submitted {folder : String} {idx : Nat} :
    ∀ (ls : List String) (s : DedupState),
      (runDedup folder idx s ls).1.submitted.map Prod.fst =
        s.submitted.map Prod.fst ++
          firstSights (s.visited.map Prod.fst) ls := by
  intro ls
  induction ls with
  | nil => intro s; simp [runDedup, firstSights]
  | cons l t ih =>
    intro s
    cases hl : lookupAssoc s.visited l with
    | some q =>
      have hmem : l ∈ s.visited.map Prod.fst := by
        by_contra hc
        rw [← lookupAssoc_eq_none_iff] at hc
        rw [hl] at hc; cases hc
      show (runDedup folder idx (dedupStep folder idx s l).1 t).1.submitted.map
          Prod.fst = _
      rw [show (dedupStep folder idx s l).1 = s by simp [dedupStep, hl]]
      rw [ih s, firstSights, if_pos hmem]
    | none =>
      show (runDedup folder idx (dedupStep folder idx s l).1 t).1.submitted.map
          Prod.fst = _
      rw [ih _]
      rw [show (dedupStep folder idx s l).1 =
        ⟨updateAssoc s.visited l (storePath folder idx (s.counter + 1)),
          s.counter + 1,
          s.submitted ++ [(l, storePath folder idx (s.counter + 1))]⟩
        from by simp [dedupStep, hl]]
      simp only [List.map_append, List.map_cons, List.map_nil]
      rw [updateAssoc_map_fst_of_absent _ _ _ hl]
      have hnotmem : l ∉ s.visited.map Prod.fst :=
        (lookupAssoc_eq_none_iff _ _).mp hl
      rw [show firstSights (s.visited.map Prod.fst) (l :: t) =
        l :: firstSights (l :: s.visited.map Prod.fst) t
        from by simp [firstSights, hnotmem]]
      rw [firstSights_congr t (s.visited.map Prod.fst ++ [l])
        (l :: s.visited.map Prod.fst) (fun x => by simp [or_comm])]
      simp

theorem firstSights_nodup :
    ∀ (ls seen : List String),
      (firstSights seen ls).Nodup ∧ ∀ x ∈ firstSights seen ls, x ∉ seen := by
  intro ls
  induction ls with
  | nil => intro seen; exact ⟨List.nodup_nil, by intro x hx; cases hx⟩
  | cons l t ih =>
    intro seen
    by_cases h : l ∈ seen
    · simpa [firstSights, if_pos h] using ih seen
    · obtain ⟨hnd, hout⟩ := ih (l :: seen)
      simp only [firstSights, if_neg h]
      constructor
      · refine List.nodup_cons.mpr ⟨?_, hnd⟩
        intro hmem
        exact hout l hmem (List.mem_cons_self l seen)
      · intro x hx
        rcases List.mem_cons.mp hx with he | ht
        · rw [he]; exact h
        · intro hs
          exact hout x ht (List.mem_cons_of_mem l hs)

/-- C6: within one claim, (1) one printed path per accepted occurrence;
(2) the printed path of every occurrence is the final map's entry for its
URL, so lookups of the same URL agree across all queries and pages; (3) two
occurrences share a path exactly when they share a URL (distinct URLs get
distinct store paths); (4) the URLs of the submitted fetch tasks are
exactly the first occurrences, in first-sight order, and (5) without
duplicates — one task per unique URL, submitted on first sight.  The state
is rebuilt from `initDedup` for each claim, mirroring the per-claim reset
of `visited` and `store_counter`. -/
theorem dedupStore_invariants (folder : String) (idx : Nat)
    (links : List String) :
    ((runClaimLinks folder idx links).2.length = links.length) ∧
    (∀ n u, links.get? n = some u →
      (runClaimLinks folder idx links).2.get? n =
        lookupAssoc (runClaimLinks folder idx links).1.visited u) ∧
    (∀ i j u v p q, links.get? i = some u → links.get? j = some v →
      (runClaimLinks folder idx links).2.get? i = some p →
      (runClaimLinks folder idx links).2.get? j = some q →
      (u = v ↔ p = q)) ∧
    ((runClaimLinks folder idx links).1.submitted.map Prod.fst =
      firstSights [] links) ∧
    (firstSights [] links).Nodup := by
  have hgood : goodState folder idx (runClaimLinks folder idx links).1 :=
    runDedup_good links initDedup (goodState_init folder idx)
  refine ⟨runDedup_length links initDedup, ?_, ?_, ?_, (firstSights_nodup links []).1⟩
  · intro n u h
    exact runDedup_printed links initDedup n u h
  · intro i j u v p q hu hv hp hq
    have hpu : lookupAssoc (runClaimLinks folder idx links).1.visited u = some p := by
      rw [show runClaimLinks folder idx links =
        runDedup folder idx initDedup links from rfl,
        ← runDedup_printed links initDedup i u hu]
      exact hp
    have hqv : lookupAssoc (runClaimLinks folder idx links).1.visited v = some q := by
      rw [show runClaimLinks folder idx links =
        runDedup folder idx initDedup links from rfl,
        ← runDedup_printed links initDedup j v hv]
      exact hq
    constructor
    · intro he
      subst he
      rw [hpu] at hqv
      exact Option.some.inj hqv
    · intro he
      subst he
      exact hgood.2 u v p hpu hqv
  · have h := @runDedup_submitted folder idx links initDedup
    simpa [initDedup] using h

/-- Witness for C6: processing `["u1", "u2", "u1"]` prints the first path
again for the duplicate `u1`, and the paths of `u1` and `u2` differ —
derived by applying the invariants at this concrete input. -/
theorem dedupStore_invariants_witness :
    (runClaimLinks "store" 7 ["u1", "u2", "u1"]).2 =
      ["store/search_result_7_1.store", "store/search_result_7_2.store",
        "store/search_result_7_1.store"] ∧
    ("store/search_result_7_1.store" : String) ≠
      "store/search_result_7_2.store" := by
  refine ⟨rfl, ?_⟩
  intro h
  have hiff := (dedupStore_invariants "store" 7 ["u1", "u2", "u1"]).2.2.1
    0 1 "u1" "u2" "store/search_result_7_1.store" "store/search_result_7_2.store"
    rfl rfl rfl rfl
  exact absurd (hiff.mpr h) (by decide)

end Averitec
